import Mathlib

/-!
Verification of pushy protocol core (src/pushy/protocol/baseconnection.py).

The development shallowly embeds the connection core: the value marshaler
(BaseConnection.__marshal / __unmarshal with their proxy tables), the
request sender (send_request), the scheduling entry points
(__waitForRequest / __waitForResponse) and the dispatch glue (__handle,
__handle_syncrequest).  Byte strings are modelled as List Nat, Python
integers as Int, object identities (Python id()) as Int.

External collaborators that are not part of the repository (the binary
codec of the stdlib marshal module, the Message framing codec, the Proxy
factory, the message_types table) are modelled from the spec where needed;
each such definition carries a doc comment saying so.
-/

namespace Pushy

/-! ## Self-delimiting byte encodings

Modelled from the spec: the simple scalars are "Encoded by a standard
binary value codec" (the stdlib marshal module, external to the
repository).  We model it as a concrete injective self-delimiting byte
codec over the scalar kinds the connection core actually passes to it:
integers, byte strings, booleans, None, and flat tuples of those (the
proxy-introduction tuples).  Byte strings are List Nat. -/

def varintAux : Nat → Nat → List Nat
  | 0, n => [n]
  | fuel + 1, n =>
    if n < 128 then [n] else (n % 128 + 128) :: varintAux fuel (n / 128)

def varint (n : Nat) : List Nat := varintAux n n

def varintDec : List Nat → Option (Nat × List Nat)
  | [] => none
  | b :: rest =>
    if b < 128 then some (b, rest)
    else
      match varintDec rest with
      | some (m, r) => some ((b - 128) + 128 * m, r)
      | none => none

theorem varintAux_dec (fuel : Nat) : ∀ n rest, n ≤ fuel →
    varintDec (varintAux fuel n ++ rest) = some (n, rest) := by
  induction fuel with
  | zero =>
    intro n rest hn
    have : n = 0 := by omega
    subst this
    simp [varintAux, varintDec]
  | succ fuel ih =>
    intro n rest hn
    rw [varintAux]
    by_cases h : n < 128
    · simp [h, varintDec]
    · rw [if_neg h]
      simp only [List.cons_append, varintDec, List.append_eq]
      rw [if_neg (by omega)]
      rw [ih (n / 128) rest (by omega)]
      simp only [Option.some.injEq, Prod.mk.injEq]
      refine ⟨?_, trivial⟩
      omega

theorem varintDec_varint (n : Nat) : ∀ rest, varintDec (varint n ++ rest) = some (n, rest) := by
  intro rest
  exact varintAux_dec n n rest le_rfl

/-- Scalar values handled by the modelled binary value codec. -/
inductive MScalar where
  | mint : Int → MScalar
  | mstr : List Nat → MScalar
  | mbool : Bool → MScalar
  | mnone : MScalar
deriving Repr, DecidableEq

/-- Values handled by the modelled binary value codec: scalars, and the
flat tuples of scalars used for proxy introductions. -/
inductive MVal where
  | scal : MScalar → MVal
  | tup : List MScalar → MVal
deriving Repr, DecidableEq

def mdumpsScal : MScalar → List Nat
  | .mint i => 0 :: (if i < 0 then 1 else 0) :: varint i.natAbs
  | .mstr bs => 1 :: (varint bs.length ++ bs)
  | .mbool b => [2, if b then 1 else 0]
  | .mnone => [3]

/-- Modelled from the spec: marshal.dumps of the binary value codec. -/
def mdumps : MVal → List Nat
  | .scal s => mdumpsScal s
  | .tup l => 4 :: (varint l.length ++ (l.map mdumpsScal).flatten)

def mdecScal : List Nat → Option (MScalar × List Nat)
  | 0 :: s :: rest =>
    match varintDec rest with
    | some (m, r) => some (.mint (if s == 1 then -(m : Int) else (m : Int)), r)
    | none => none
  | 1 :: rest =>
    match varintDec rest with
    | some (n, r) => if n ≤ r.length then some (.mstr (r.take n), r.drop n) else none
    | none => none
  | 2 :: b :: rest => some (.mbool (b == 1), rest)
  | 3 :: rest => some (.mnone, rest)
  | _ => none

def mdecList : Nat → List Nat → Option (List MScalar × List Nat)
  | 0, rest => some ([], rest)
  | n + 1, rest =>
    match mdecScal rest with
    | some (s, r) =>
      match mdecList n r with
      | some (l, r') => some (s :: l, r')
      | none => none
    | none => none

def mdec : List Nat → Option (MVal × List Nat)
  | 4 :: rest =>
    match varintDec rest with
    | some (n, r) =>
      match mdecList n r with
      | some (l, r') => some (.tup l, r')
      | none => none
    | none => none
  | p =>
    match mdecScal p with
    | some (s, r) => some (.scal s, r)
    | none => none

/-- Modelled from the spec: marshal.loads of the binary value codec
(trailing bytes are ignored, as loads only reads one value). -/
def mloads (p : List Nat) : Option MVal := (mdec p).map Prod.fst

theorem mdecScal_mdumpsScal (s : MScalar) (rest : List Nat) :
    mdecScal (mdumpsScal s ++ rest) = some (s, rest) := by
  cases s with
  | mint i =>
    by_cases h : i < 0
    · simp only [mdumpsScal, if_pos h, List.cons_append, mdecScal,
        varintDec_varint]
      simp only [Option.some.injEq, Prod.mk.injEq, MScalar.mint.injEq,
        and_true]
      simp only [show ((1 : Nat) == 1) = true from rfl, if_pos]
      omega
    · simp only [mdumpsScal, if_neg h, List.cons_append, mdecScal,
        varintDec_varint]
      simp only [Option.some.injEq, Prod.mk.injEq, MScalar.mint.injEq,
        and_true]
      simp only [show ((0 : Nat) == 1) = false from rfl, if_neg,
        Bool.false_eq_true, not_false_eq_true]
      omega
  | mstr bs =>
    simp only [mdumpsScal, List.cons_append, List.append_assoc, mdecScal,
      varintDec_varint]
    rw [if_pos (by simp)]
    simp
  | mbool b =>
    cases b <;> simp [mdumpsScal, mdecScal]
  | mnone =>
    simp [mdumpsScal, mdecScal]

theorem mdecList_mdumps (l : List MScalar) (rest : List Nat) :
    mdecList l.length ((l.map mdumpsScal).flatten ++ rest) = some (l, rest) := by
  induction l generalizing rest with
  | nil => simp [mdecList]
  | cons s t ih =>
    simp only [List.map_cons, List.flatten_cons, List.length_cons, mdecList,
      List.append_assoc, mdecScal_mdumpsScal, ih]

theorem mdec_head_ne_four (b : Nat) (xs : List Nat) (hb : b ≠ 4) :
    mdec (b :: xs) =
      match mdecScal (b :: xs) with
      | some (s, r) => some (MVal.scal s, r)
      | none => none := by
  unfold mdec
  split
  · rename_i heq
    injection heq with h1 _
    exact absurd h1 hb
  · rfl

theorem mdec_mdumps (v : MVal) (rest : List Nat) :
    mdec (mdumps v ++ rest) = some (v, rest) := by
  cases v with
  | scal s =>
    have hs := mdecScal_mdumpsScal s rest
    cases s with
    | mint i =>
      simp only [mdumps, mdumpsScal, List.cons_append] at hs ⊢
      rw [mdec_head_ne_four 0 _ (by decide), hs]
    | mstr bs =>
      simp only [mdumps, mdumpsScal, List.cons_append] at hs ⊢
      rw [mdec_head_ne_four 1 _ (by decide), hs]
    | mbool b =>
      simp only [mdumps, mdumpsScal, List.cons_append] at hs ⊢
      rw [mdec_head_ne_four 2 _ (by decide), hs]
    | mnone =>
      simp only [mdumps, mdumpsScal, List.cons_append] at hs ⊢
      rw [mdec_head_ne_four 3 _ (by decide), hs]
  | tup l =>
    simp only [mdumps, List.cons_append, List.append_assoc, mdec,
      varintDec_varint, mdecList_mdumps]

theorem mloads_mdumps (v : MVal) : mloads (mdumps v) = some v := by
  have := mdec_mdumps v []
  rw [List.append_nil] at this
  simp [mloads, this]

/-! ## The value model

A Python value seen by BaseConnection.__marshal is one of:
 * `scalar s` — its type is in `marshallable_types` and marshal.dumps
   succeeds on it (line 433-434 of baseconnection.py);
 * `badscalar oid opmask kind args` — its type is in `marshallable_types`
   but marshal.dumps raises ValueError on it (e.g. a Python 2 buffer
   object); the except at line 435 swallows the error and the value falls
   through to the identity chain, so it carries the data that chain needs:
   its identity id(obj), its get_opmask value, its ProxyType.get kind and
   the optional constructor-args value ProxyType.get returns;
 * `tup items` — a tuple (line 439);
 * `obj oid opmask kind args` — any other object, with the same attached
   collaborator data as badscalar. -/
inductive PyVal where
  | scalar : MScalar → PyVal
  | badscalar : Int → Int → Int → Option PyVal → PyVal
  | tup : List PyVal → PyVal
  | obj : Int → Int → Int → Option PyVal → PyVal

mutual

def isSimple : PyVal → Bool
  | .scalar _ => true
  | .tup l => isSimpleList l
  | _ => false

def isSimpleList : List PyVal → Bool
  | [] => true
  | v :: rest => isSimple v && isSimpleList rest

end

/-- The four per-connection identity tables of BaseConnection
(lines 134-142), plus a counter used by the modelled Proxy factory to
allocate fresh local identities for decoded proxies. -/
structure Tables where
  proxied_objects : List (Int × PyVal)
  proxy_ids : List (Int × Int)
  proxies : List (Int × PyVal)
  pending_proxies : List Int
  nextId : Int

def emptyTables : Tables := ⟨[], [], [], [], 0⟩

/-- The only exception __marshal can raise in the model: struct.error from
struct.pack when a part length does not fit 4 bytes.  (The ValueError of
marshal.dumps on a simple-typed value is already encoded by the
`badscalar` constructor, and the recursive calls of __marshal never raise
ValueError, so the except ValueError around the tuple loop at line 447 is
unreachable and the loop simply propagates struct.error.) -/
inductive MErr where
  | structError
deriving Repr, DecidableEq

/-- struct.pack of the format >I (4 bytes big-endian, line 444). -/
def pack4 (n : Nat) : Except MErr (List Nat) :=
  if n < 4294967296 then
    .ok [n / 16777216 % 256, n / 65536 % 256, n / 256 % 256, n % 256]
  else .error .structError

/-- Record an object in proxied_objects (line 472). -/
def record (t : Tables) (i : Int) (v : PyVal) : Tables :=
  { t with proxied_objects := (i, v) :: t.proxied_objects }

/-- The tuple-branch payload assembly of __marshal (lines 440-446): each
part is preceded by its 4-byte big-endian length. -/
def buildT : List (List Nat) → Except MErr (List Nat)
  | [] => .ok []
  | p :: rest =>
    match pack4 p.length with
    | .ok len4 =>
      match buildT rest with
      | .ok bs => .ok (len4 ++ p ++ bs)
      | .error e => .error e
    | .error e => .error e

/-- The identity chain of __marshal (lines 449-473): repeat proxy
emission with tag p and a scalar identity, origin reference with tag o,
or a new proxy introduction with tag p and the full introduction tuple,
recording the object in proxied_objects before returning.  margs is the
result of the recursive __marshal of the constructor args (line 467),
passed in precomputed (none when ProxyType.get returned a bare kind);
it is consulted only in the new-introduction branch, exactly as the
source only computes it there. -/
def marshalObj (t : Tables) (v : PyVal) (i m k : Int)
    (margs : Option (Except MErr (List Nat × Tables))) :
    Except MErr (List Nat × Tables) :=
  match t.proxied_objects.lookup i with
  | some _ => .ok (112 :: mdumps (.scal (.mint i)), t)
  | none =>
    match t.proxy_ids.lookup i with
    | some r => .ok (111 :: mdumps (.scal (.mint r)), t)
    | none =>
      match margs with
      | some (.ok (bs2, t1)) =>
        .ok (112 :: mdumps (.tup [.mint i, .mint m, .mint k, .mstr bs2]),
             record t1 i v)
      | some (.error e) => .error e
      | none =>
        .ok (112 :: mdumps (.tup [.mint i, .mint m, .mint k]), record t i v)

mutual

/-- BaseConnection.__marshal (lines 430-473).  Byte 115 is the tag s,
116 is t, 112 is p, 111 is o.  Returns the payload bytes together with
the updated tables. -/
def marshal (t : Tables) (v : PyVal) : Except MErr (List Nat × Tables) :=
  match v with
  | .scalar s => .ok (115 :: mdumps (.scal s), t)
  | .tup items =>
    match marshalParts t items with
    | .ok (parts, t') =>
      match buildT parts with
      | .ok bs => .ok (116 :: bs, t')
      | .error e => .error e
    | .error e => .error e
  | .badscalar i m k a =>
    match a with
    | some args => marshalObj t v i m k (some (marshal t args))
    | none => marshalObj t v i m k none
  | .obj i m k a =>
    match a with
    | some args => marshalObj t v i m k (some (marshal t args))
    | none => marshalObj t v i m k none
termination_by structural v

/-- The per-item recursion of the tuple branch (lines 442-443). -/
def marshalParts (t : Tables) (l : List PyVal) : Except MErr (List (List Nat) × Tables) :=
  match l with
  | [] => .ok ([], t)
  | v :: rest =>
    match marshal t v with
    | .ok (bs, t') =>
      match marshalParts t' rest with
      | .ok (parts, t'') => .ok (bs :: parts, t'')
      | .error e => .error e
    | .error e => .error e
termination_by structural l

end

/-! ## The decoder -/

/-- What marshal.loads returns seen as a connection value. -/
def mvalToPy : MVal → PyVal
  | .scal s => .scalar s
  | .tup l => .tup (l.map PyVal.scalar)

/-- Exceptions of the modelled __unmarshal.
  invalidPayload is the ValueError "Invalid payload prefix" (line 535);
  loadsError is a ValueError of marshal.loads on a malformed payload;
  structError is struct.error from unpacking a short length field
  (line 485); keyError is the KeyError of the proxied_objects lookup
  (line 533); typeError stands for the TypeError/AttributeError Python
  would raise when a proxy payload does not have the protocol shape
  (never produced by this protocol). -/
inductive UErr where
  | invalidPayload
  | loadsError
  | structError
  | keyError
  | typeError
deriving Repr, DecidableEq

/-- Result of the modelled __unmarshal.  The embedding is sequential, so
the event.wait of the known-proxy branch (line 527), which in the real
program blocks until another thread decodes the introduction, is the
distinguished outcome `blocked id tables` (with the pending_proxies entry
already registered).  `diverge` is returned only when the fuel runs out
and is unreachable for fuel larger than the payload length. -/
inductive URes where
  | ok : PyVal → Tables → URes
  | err : UErr → URes
  | blocked : Int → Tables → URes
  | diverge

/-- Result of the tuple-branch loop. -/
inductive LRes where
  | ok : List PyVal → Tables → LRes
  | err : UErr → LRes
  | blocked : Int → Tables → LRes
  | diverge

/-- The s branch of __unmarshal (lines 477-479): marshal.loads of the
rest of the payload, returned literally. -/
def sBranch (t : Tables) (rest : List Nat) : URes :=
  match mloads rest with
  | some v => .ok (mvalToPy v) t
  | none => .err .loadsError

/-- The o branch of __unmarshal (lines 530-533): resolve through
proxied_objects; a missing key raises KeyError. -/
def oBranch (t : Tables) (rest : List Nat) : URes :=
  match mloads rest with
  | some (.scal (.mint i)) =>
    match t.proxied_objects.lookup i with
    | some v => .ok v t
    | none => .err .keyError
  | some _ => .err .keyError
  | none => .err .loadsError

/-- Modelled from the spec: the Proxy factory (pushy.protocol.proxy is
external to the repository).  Constructing a proxy calls the
register-callback, which inserts into proxies and proxy_ids
(__register_proxy, lines 538-542); afterwards __unmarshal signals and
removes any pending_proxies entry for the identity (lines 501-509).  The
constructed proxy is modelled as an obj value with a fresh local
identity. -/
def mkProxy (t : Tables) (i m k : Int) (args : Option PyVal) : URes :=
  let lid := t.nextId
  let p := PyVal.obj lid m k args
  let t1 := { t with proxies := (i, p) :: t.proxies,
                     proxy_ids := (lid, i) :: t.proxy_ids,
                     nextId := t.nextId + 1 }
  let t2 := if t1.pending_proxies.contains i then
              { t1 with pending_proxies := t1.pending_proxies.filter (fun x => x ≠ i) }
            else t1
  .ok p t2

mutual

/-- BaseConnection.__unmarshal (lines 476-535), with explicit fuel for
the recursion on payload slices.  Tag bytes: 115 = s, 116 = t, 112 = p,
111 = o; any other head byte (or an empty payload, for which every
startswith test is false) raises ValueError "Invalid payload prefix". -/
def unmarshalF : Nat → Tables → List Nat → URes
  | 0, _, _ => .diverge
  | fuel + 1, t, payload =>
    match payload with
    | 115 :: rest => sBranch t rest
    | 116 :: rest =>
      match tLoopF fuel t rest with
      | .ok parts t' => .ok (.tup parts) t'
      | .err e => .err e
      | .blocked i t' => .blocked i t'
      | .diverge => .diverge
    | 112 :: rest =>
      match mloads rest with
      | none => .err .loadsError
      | some (.tup l) =>
        match l with
        | .mint i :: .mint m :: .mint k :: restl =>
          match restl with
          | [] => mkProxy t i m k none
          | .mstr pbytes :: _ =>
            match unmarshalF fuel t pbytes with
            | .ok args t' => mkProxy t' i m k (some args)
            | r => r
          | _ => .err .typeError
        | _ => .err .typeError
      | some (.scal (.mint i)) =>
        match t.proxies.lookup i with
        | some p => .ok p t
        | none =>
          .blocked i (if t.pending_proxies.contains i then t
                      else { t with pending_proxies := i :: t.pending_proxies })
      | some _ => .err .typeError
    | 111 :: rest => oBranch t rest
    | _ => .err .invalidPayload

/-- The while loop of the t branch (lines 481-489): read a 4-byte
big-endian length, decode that many bytes as one element, continue with
the remainder; fewer than 4 remaining bytes make struct.unpack raise
struct.error. -/
def tLoopF : Nat → Tables → List Nat → LRes
  | 0, _, _ => .diverge
  | _ + 1, t, [] => .ok [] t
  | fuel + 1, t, b0 :: b1 :: b2 :: b3 :: rest =>
    let size := b0 * 16777216 + b1 * 65536 + b2 * 256 + b3
    match unmarshalF fuel t (rest.take size) with
    | .ok part t' =>
      match tLoopF fuel t' (rest.drop size) with
      | .ok parts t'' => .ok (part :: parts) t''
      | r => r
    | .err e => .err e
    | .blocked i t' => .blocked i t'
    | .diverge => .diverge
  | _ + 1, _, _ => .err .structError

end

/-- The t branch of __unmarshal as a named function of the remaining
payload (fuel as in the dispatching call). -/
def tBranch (fuel : Nat) (t : Tables) (rest : List Nat) : URes :=
  match tLoopF fuel t rest with
  | .ok parts t' => .ok (.tup parts) t'
  | .err e => .err e
  | .blocked i t' => .blocked i t'
  | .diverge => .diverge

/-- The p branch of __unmarshal as a named function (lines 490-529):
a tuple payload is a new proxy introduction (with optional recursively
unmarshaled constructor args); a scalar identity is a reference to an
already known (or pending) proxy. -/
def pBranch (fuel : Nat) (t : Tables) (rest : List Nat) : URes :=
  match mloads rest with
  | none => .err .loadsError
  | some (.tup l) =>
    match l with
    | .mint i :: .mint m :: .mint k :: restl =>
      match restl with
      | [] => mkProxy t i m k none
      | .mstr pbytes :: _ =>
        match unmarshalF fuel t pbytes with
        | .ok args t' => mkProxy t' i m k (some args)
        | r => r
      | _ => .err .typeError
    | _ => .err .typeError
  | some (.scal (.mint i)) =>
    match t.proxies.lookup i with
    | some p => .ok p t
    | none =>
      .blocked i (if t.pending_proxies.contains i then t
                  else { t with pending_proxies := i :: t.pending_proxies })
  | some _ => .err .typeError

/-- __unmarshal with sufficient fuel: every recursive call is on a
strictly shorter payload, so payload length plus one always suffices. -/
def unmarshal (t : Tables) (p : List Nat) : URes :=
  unmarshalF (p.length + 1) t p

/-! ## Round-trip of the s and t branches -/

theorem marshal_roundtrip_aux :
    ∀ n : Nat, ∀ v : PyVal, sizeOf v ≤ n → isSimple v = true →
    ∀ t bs t', marshal t v = .ok (bs, t') →
    t' = t ∧ ∀ fuel u, bs.length < fuel → unmarshalF fuel u bs = .ok v u := by
  intro n
  induction n with
  | zero =>
    intro v hsz
    exact absurd hsz (by cases v <;> simp)
  | succ n ih =>
    intro v hsz hsimp t bs t' hm
    cases v with
    | badscalar i m k a => simp [isSimple] at hsimp
    | obj i m k a => simp [isSimple] at hsimp
    | scalar s =>
      rw [marshal] at hm
      have hinj := Except.ok.inj hm
      have hbs : bs = 115 :: mdumps (.scal s) := (congrArg Prod.fst hinj).symm
      have ht : t' = t := (congrArg Prod.snd hinj).symm
      refine ⟨ht, ?_⟩
      intro fuel u hfuel
      cases fuel with
      | zero => exact absurd hfuel (Nat.not_lt_zero _)
      | succ f =>
        rw [hbs, unmarshalF]
        simp [sBranch, mloads_mdumps, mvalToPy]
    | tup items =>
      have hsimpl : isSimpleList items = true := by
        rw [isSimple] at hsimp; exact hsimp
      have hszl : sizeOf items ≤ n := by
        have : sizeOf (PyVal.tup items) = 1 + sizeOf items := by simp
        omega
      -- the loop lemma for the elements
      have key : ∀ l : List PyVal, sizeOf l ≤ n → isSimpleList l = true →
          ∀ t0 parts t1, marshalParts t0 l = .ok (parts, t1) →
          t1 = t0 ∧ ∀ body, buildT parts = .ok body →
            ∀ fuel u, body.length < fuel → tLoopF fuel u body = .ok l u := by
        intro l
        induction l with
        | nil =>
          intro _ _ t0 parts t1 hmp
          rw [marshalParts] at hmp
          have hinj := Except.ok.inj hmp
          have hparts : parts = [] := (congrArg Prod.fst hinj).symm
          have ht1 : t1 = t0 := (congrArg Prod.snd hinj).symm
          refine ⟨ht1, ?_⟩
          intro body hbt fuel u hfuel
          rw [hparts, buildT] at hbt
          have hb : body = [] := (Except.ok.inj hbt).symm
          rw [hb]
          cases fuel with
          | zero => exact absurd hfuel (Nat.not_lt_zero _)
          | succ f => rw [tLoopF]
        | cons v rest ihl =>
          intro hszc hsimpc t0 parts t1 hmp
          have hsimpv : isSimple v = true ∧ isSimpleList rest = true := by
            rw [isSimpleList] at hsimpc
            exact And.imp id id (Bool.and_eq_true_iff.mp hsimpc)
          have hszcons : sizeOf (v :: rest) = 1 + sizeOf v + sizeOf rest := by simp
          have hszv : sizeOf v ≤ n := by omega
          have hszr : sizeOf rest ≤ n := by omega
          rw [marshalParts] at hmp
          cases hmv : marshal t0 v with
          | error e => rw [hmv] at hmp; simp at hmp
          | ok p =>
            obtain ⟨bsv, tv⟩ := p
            rw [hmv] at hmp
            dsimp only at hmp
            cases hmr : marshalParts tv rest with
            | error e => rw [hmr] at hmp; simp at hmp
            | ok q =>
              obtain ⟨partsR, tR⟩ := q
              rw [hmr] at hmp
              dsimp only at hmp
              have hinj := Except.ok.inj hmp
              have hparts : parts = bsv :: partsR := (congrArg Prod.fst hinj).symm
              have ht1 : t1 = tR := (congrArg Prod.snd hinj).symm
              obtain ⟨htv, hdecv⟩ := ih v hszv hsimpv.1 t0 bsv tv hmv
              obtain ⟨htR, hdecR⟩ := ihl hszr hsimpv.2 tv partsR tR hmr
              refine ⟨by rw [ht1, htR, htv], ?_⟩
              intro body hbt fuel u hfuel
              rw [hparts, buildT] at hbt
              cases hp4 : pack4 bsv.length with
              | error e => rw [hp4] at hbt; simp at hbt
              | ok len4 =>
                rw [hp4] at hbt
                dsimp only at hbt
                cases hbr : buildT partsR with
                | error e => rw [hbr] at hbt; simp at hbt
                | ok bodyR =>
                  rw [hbr] at hbt
                  dsimp only at hbt
                  have hb : body = len4 ++ bsv ++ bodyR := (Except.ok.inj hbt).symm
                  rw [pack4] at hp4
                  by_cases hlt : bsv.length < 4294967296
                  · rw [if_pos hlt] at hp4
                    have hl4 : len4 = [bsv.length / 16777216 % 256,
                        bsv.length / 65536 % 256,
                        bsv.length / 256 % 256, bsv.length % 256] :=
                      (Except.ok.inj hp4).symm
                    rw [hl4] at hb
                    rw [hb] at hfuel ⊢
                    simp only [List.cons_append, List.nil_append, List.length_cons,
                      List.length_append] at hfuel ⊢
                    cases fuel with
                    | zero => exact absurd hfuel (Nat.not_lt_zero _)
                    | succ f =>
                      rw [tLoopF]
                      have hsz4 : bsv.length / 16777216 % 256 * 16777216 +
                          bsv.length / 65536 % 256 * 65536 +
                          bsv.length / 256 % 256 * 256 + bsv.length % 256
                          = bsv.length := by omega
                      rw [hsz4]
                      rw [List.take_left, List.drop_left]
                      rw [hdecv f u (by omega)]
                      dsimp only
                      rw [hdecR bodyR hbr f u (by omega)]
                  · rw [if_neg hlt] at hp4
                    simp at hp4
      -- back to the tuple itself
      rw [marshal] at hm
      cases hmp : marshalParts t items with
      | error e => rw [hmp] at hm; simp at hm
      | ok p =>
        obtain ⟨parts, t1⟩ := p
        rw [hmp] at hm
        dsimp only at hm
        cases hbt : buildT parts with
        | error e => rw [hbt] at hm; simp at hm
        | ok body =>
          rw [hbt] at hm
          dsimp only at hm
          have hinj := Except.ok.inj hm
          have hbs : bs = 116 :: body := (congrArg Prod.fst hinj).symm
          have ht : t' = t1 := (congrArg Prod.snd hinj).symm
          obtain ⟨ht1, hdec⟩ := key items hszl hsimpl t parts t1 hmp
          refine ⟨by rw [ht, ht1], ?_⟩
          intro fuel u hfuel
          rw [hbs] at hfuel ⊢
          simp only [List.length_cons] at hfuel
          cases fuel with
          | zero => exact absurd hfuel (Nat.not_lt_zero _)
          | succ f =>
            rw [unmarshalF]
            rw [hdec body hbt f u (by omega)]

/-! ## The connection layer

Message types are identified by their numeric codes.  Modelled from the
spec: the Message/MessageType classes live in the external module
pushy.protocol.message; the spec fixes a closed set response, exception,
syncrequest plus a family of request subtypes, with message_types mapping
a code back to its type.  We pick 0, 1, 2 for the three distinguished
types; every other code is a request subtype. -/

def responseCode : Nat := 0
def exceptionCode : Nat := 1
def syncrequestCode : Nat := 2

/-- The response_types tuple (lines 38-40). -/
def response_types : List Nat := [responseCode, exceptionCode]

/-- Modelled from the spec: the message_types table of the external
message module, mapping a numeric code back to its message type.  Codes
are their own types in this model, so the table is the identity on valid
(nonnegative) codes. -/
def message_types (c : Int) : Option Nat :=
  if 0 ≤ c then some c.toNat else none

/-- A framed message: type code and payload bytes. -/
structure Msg where
  mtype : Nat
  payload : List Nat
deriving Repr, DecidableEq

/-- A ResponseHandler (lines 60-89).  hid models Python object identity
(the is/is-not comparisons of handlers); eventSet and message model the
threading.Event and the message slot. -/
structure RH where
  hid : Nat
  thread : Nat
  syncrequest : Bool
  eventSet : Bool
  message : Option Msg
deriving Repr, DecidableEq

/-- The per-connection scheduling state of BaseConnection
(lines 94-142): the open flag, the receiving flag, the processing /
waiting / responses counters (Python ints, hence Int), the queued
requests, the ordered response handlers and the marshal tables. -/
structure Conn where
  openFlag : Bool
  receiving : Bool
  processing : Int
  waiting : Int
  responses : Int
  requests : List Msg
  response_handlers : List RH
  tables : Tables

/-- The scan of send_request (lines 244-251): the index of the first
handler owned by the calling thread, or the length of the list if there
is none. -/
def insertIndex (tid : Nat) : List RH → Nat
  | [] => 0
  | h :: rest => if h.thread = tid then 0 else insertIndex tid rest + 1

/-- Outcome of the modelled send_request up to the write of the request
frame (the part executed under the request lock, lines 212-265). -/
inductive SROutcome where
  | ok : RH → SROutcome
  | closedError
  | merr : MErr → SROutcome
deriving Repr, DecidableEq

structure SRRes where
  conn : Conn
  trace : List Msg
  outcome : SROutcome

/-- __send_message (lines 545-554) together with the assembly of the
result of the modelled send_request: marshal the arguments, write one
frame to the trace. -/
def sendFrame (c1 : Conn) (mt' : Nat) (args' : PyVal) (handler : RH) : SRRes :=
  match marshal c1.tables args' with
  | .ok (payload, t2) =>
    ⟨{ c1 with tables := t2 }, [⟨mt', payload⟩], .ok handler⟩
  | .error e => ⟨c1, [], .merr e⟩

/-- BaseConnection.send_request, lines 212-265 (the registration and
send phase; the subsequent waitForResponse loop is modelled separately).
Arguments: the connection, the calling thread identity, the value of the
per-thread request_count, a fresh identity for the new handler, the
message type code and the arguments value.  trace is the list of frames
written to the output stream. -/
def send_request (c : Conn) (tid : Nat) (request_count : Nat) (hid : Nat)
    (mt : Nat) (args : PyVal) : SRRes :=
  if ¬ c.openFlag then ⟨c, [], .closedError⟩
  else
    match (if 0 < request_count then
             match marshal c.tables args with
             | .ok (bs, t') =>
               .ok (syncrequestCode,
                    PyVal.tup [.scalar (.mint mt), .scalar (.mstr bs)], t')
             | .error e => .error e
           else .ok (mt, args, c.tables) :
           Except MErr (Nat × PyVal × Tables)) with
    | .error e => ⟨c, [], .merr e⟩
    | .ok (mt', args', t') =>
      let handler : RH := ⟨hid, tid, mt' == syncrequestCode, false, none⟩
      let c1 :=
        if mt' == syncrequestCode then
          let i := insertIndex tid c.response_handlers
          { c with tables := t',
                   waiting := c.waiting + 1,
                   response_handlers :=
                     c.response_handlers.take i ++ handler ::
                       c.response_handlers.drop i }
        else
          { c with tables := t',
                   response_handlers := c.response_handlers ++ [handler] }
      sendFrame c1 mt' args' handler

/-- The dispatch decision of __handle together with
__handle_syncrequest (lines 570-586 and 625-631): which externally
registered handler is invoked, and with which unmarshaled arguments.
For a syncrequest the outer wrapper (inner-code, inner-payload) is
stripped and the inner payload unmarshaled; for every other type the
handler for the type code gets the unmarshaled payload.  none models the
paths on which an exception interrupts dispatch (unmarshal failure, a
malformed wrapper, an unknown code). -/
def handleSyncrequestDispatch (t : Tables) (args : PyVal) : Option (Nat × PyVal) :=
  match args with
  | .tup [.scalar (.mint c), .scalar (.mstr p)] =>
    match message_types c with
    | some rmt =>
      match unmarshal t p with
      | .ok inner _ => some (rmt, inner)
      | _ => none
    | none => none
  | _ => none

def dispatchOf (t : Tables) (m : Msg) : Option (Nat × PyVal) :=
  match unmarshal t m.payload with
  | .ok args t' =>
    if m.mtype == syncrequestCode then handleSyncrequestDispatch t' args
    else some (m.mtype, args)
  | _ => none

/-! ## waitForRequest and waitForResponse

Both entry points contain blocking waits; the embedding is sequential,
so a state in which the loop guard holds (and the thread would park on
the condition variable until another thread changes the state) is the
distinguished outcome blocks, and exhaustion of the modelled input
stream is the outcome streamEnd (an IOError of the underlying read).
The incoming frames are passed as a list: successive __recv calls return
successive elements. -/

/-- handler.set(m): store the message and set the event (lines 85-89). -/
def setMsg (h : RH) (m : Msg) : RH :=
  { h with eventSet := true, message := some m }

/-- handler.set() with no message: set the event only. -/
def setEvent (h : RH) : RH :=
  { h with eventSet := true }

/-- response_handlers[0].set() guarded by a nonempty check. -/
def setHead (c : Conn) : Conn :=
  match c.response_handlers with
  | [] => c
  | h0 :: tl => { c with response_handlers := setEvent h0 :: tl }

inductive WFQRes where
  | blocks
  | closedNone
  | consumed : Msg → Conn → WFQRes
  | streamEnd : Conn → WFQRes
  | gotResponse : Conn → WFQRes
  | gotSync : Conn → WFQRes
  | gotRequest : Msg → Conn → WFQRes
  | indexErr

/-- BaseConnection.__waitForRequest (lines 292-351).  The guard of the
wait loop is the condition of line 301-305; when it holds the thread
blocks.  Otherwise: a closed connection returns None (line 309-310); a
queued request is consumed (lines 313-319); else the thread reads one
frame and classifies it (lines 321-345).  gotResponse and gotSync model
the fall-through return of None after delivering the frame to the head
response handler. -/
def waitForRequest (c : Conn) (stream : List Msg) : WFQRes :=
  if (c.openFlag ∧ c.requests = []) ∧
     (c.receiving ∨ c.responses > 0 ∨
       (c.processing > 0 ∧ c.processing > c.waiting)) then
    .blocks
  else if ¬ c.openFlag then .closedNone
  else
    match c.requests with
    | req :: rest =>
      let c1 := { c with processing := c.processing + 1, requests := rest }
      .consumed req (setHead c1)
    | [] =>
      match stream with
      | [] => .streamEnd c
      | m :: _ =>
        if m.mtype ∈ response_types then
          match c.response_handlers with
          | [] => .indexErr
          | h0 :: tl =>
            .gotResponse { c with responses := c.responses + 1,
                                  response_handlers := setMsg h0 m :: tl }
        else if m.mtype = syncrequestCode then
          match c.response_handlers with
          | [] => .indexErr
          | h0 :: tl =>
            .gotSync { c with processing := c.processing + 1,
                              response_handlers := setMsg h0 m :: tl }
        else
          let c1 := if c.openFlag then { c with processing := c.processing + 1 }
                    else c
          .gotRequest m (setHead c1)

/-- The predicate of the spec (section 4.4, read arbitration): a thread
in waitForRequest may read when open, no queued requests, nobody
receiving, no unconsumed responses, and processing is zero or equals
waiting.  Stated from the words of the spec, to be compared with the
code. -/
def specReadPredicate (c : Conn) : Prop :=
  c.openFlag ∧ c.requests = [] ∧ ¬ c.receiving ∧ c.responses = 0 ∧
    (c.processing = 0 ∨ c.processing = c.waiting)

/-- Outcomes of waitForRequest on which the thread performed (or
attempted) a read of the input stream. -/
def isReadOutcome : WFQRes → Bool
  | .streamEnd _ => true
  | .gotResponse _ => true
  | .gotSync _ => true
  | .gotRequest _ _ => true
  | .indexErr => true
  | _ => false

/-- The read loop of __waitForResponse (lines 390-400): read frames,
queueing every plain request, until a response, exception or syncrequest
arrives.  Returns the frame and the extended requests queue. -/
def recvLoop : List Msg → List Msg → Option (Msg × List Msg)
  | [], _ => none
  | m :: rest, acc =>
    if m.mtype ∈ response_types ∨ m.mtype = syncrequestCode then some (m, acc)
    else recvLoop rest (acc ++ [m])

inductive WFRRes where
  | blocks
  | indexErr
  | streamEnd : Conn → WFRRes
  | closedErr : Conn → WFRRes
  | ret : Msg → Conn → WFRRes

/-- The tail of __waitForResponse after the wait loop (lines 386-423):
either read from the stream (m still none and the connection open),
update the counters and pop the head handler on a response/exception, or
consume the pre-set message; in each case decrement waiting whenever the
handler was created for a syncrequest, and raise on a closed connection
with no message. -/
def wfrAfterLoop (c : Conn) (h : RH) (m0 : Option Msg) (stream : List Msg) : WFRRes :=
  match m0 with
  | none =>
    if c.openFlag then
      match recvLoop stream c.requests with
      | none => .streamEnd c
      | some (m, requests') =>
        let c1 := { c with requests := requests' }
        let c2 := if m.mtype ∈ response_types then
                    { c1 with response_handlers := c1.response_handlers.tail }
                  else if m.mtype = syncrequestCode then
                    { c1 with processing := c1.processing + 1 }
                  else c1
        let c3 := if h.syncrequest then { c2 with waiting := c2.waiting - 1 }
                  else c2
        .ret m c3
    else
      let c3 := if h.syncrequest then { c with waiting := c.waiting - 1 } else c
      match c3.response_handlers with
      | [] => .indexErr
      | _ :: tl => .closedErr { c3 with response_handlers := tl }
  | some m =>
    if c.openFlag then
      let c2 := if m.mtype ∈ response_types then
                  { c with response_handlers := c.response_handlers.tail,
                           responses := c.responses - 1 }
                else c
      let c3 := if h.syncrequest then { c2 with waiting := c2.waiting - 1 }
                else c2
      .ret m c3
    else
      let c3 := if h.syncrequest then { c with waiting := c.waiting - 1 } else c
      .ret m c3

/-- BaseConnection.__waitForResponse (lines 354-427).  m0 is
handler.get(): the stored message if the event is set.  The wait-loop
guard of lines 364-368 blocks the thread when it holds; evaluating
handler != response_handlers[0] on an empty registry raises IndexError. -/
def waitForResponse (c : Conn) (h : RH) (stream : List Msg) : WFRRes :=
  let m0 : Option Msg := if h.eventSet then h.message else none
  if c.openFlag ∧ m0 = none then
    if c.receiving then .blocks
    else
      match c.response_handlers with
      | [] => .indexErr
      | h0 :: _ =>
        if h0.hid ≠ h.hid then .blocks
        else if c.processing > 0 ∧ c.processing > c.waiting then .blocks
        else wfrAfterLoop c h m0 stream
  else wfrAfterLoop c h m0 stream

/-! ## Dispatch glue -/

/-- Outcome of the body of the try of __handle (lines 585-586): the
unmarshal of the payload followed by the invocation of the registered
handler, which either returns a value, raises SystemExit (FatalExit,
carrying the exit code), or raises some other exception value. -/
inductive HBody where
  | ok : PyVal → HBody
  | sysExit : PyVal → HBody
  | raised : PyVal → HBody

structure HRes where
  processing : Int
  notified : Bool
  sent : List (Nat × PyVal)
  ret : Option PyVal
  propagated : Option HBody

/-- BaseConnection.__handle (lines 570-614) at the frame-value level:
given the processing count, the type of the message being handled and
the outcome of unmarshal-plus-handler, compute the updated processing
count, whether the condition was notified, the frames written (as
type-code and pre-marshal value pairs), the returned value and the
exception that propagates to the caller.  A normal result on a request
is sent back via __send_response (lines 275-289: decrement processing,
notify at zero, send a response frame); SystemExit sends the exit code
as a response and re-raises; every other exception on a non-exception
message releases the processing slot (lines 599-606) and is sent back
as an exception frame; an exception while handling an exception message
is re-raised (lines 594-597).  (The per-thread request_count increment
and decrement in the finally, lines 576-581 and 612-614, touch only
thread-local state and are not part of this result.) -/
def handleRun (processing : Int) (mtype : Nat) (body : HBody) : HRes :=
  match body with
  | .ok result =>
    if mtype ∈ response_types then
      ⟨processing, false, [], some result, none⟩
    else
      ⟨processing - 1, processing - 1 == 0, [(responseCode, result)],
       some result, none⟩
  | .sysExit code =>
    ⟨processing - 1, processing - 1 == 0, [(responseCode, code)],
     none, some (.sysExit code)⟩
  | .raised e =>
    if mtype = exceptionCode then
      ⟨processing, false, [], none, some (.raised e)⟩
    else
      ⟨processing - 1, processing - 1 == 0, [(exceptionCode, e)], none, none⟩

/-! ## Helper lemmas -/

theorem marshalObj_fst (t : Tables) (v w : PyVal) (i m k : Int)
    (margs : Option (Except MErr (List Nat × Tables))) :
    (marshalObj t v i m k margs).map Prod.fst
      = (marshalObj t w i m k margs).map Prod.fst := by
  unfold marshalObj
  cases t.proxied_objects.lookup i with
  | some _ => rfl
  | none =>
    cases t.proxy_ids.lookup i with
    | some r => rfl
    | none =>
      match margs with
      | some (.ok (bs2, t1)) => rfl
      | some (.error e) => rfl
      | none => rfl

theorem marshalObj_proxied (t : Tables) (v : PyVal) (i m k : Int)
    (margs : Option (Except MErr (List Nat × Tables))) (x : PyVal)
    (h : t.proxied_objects.lookup i = some x) :
    marshalObj t v i m k margs = .ok (112 :: mdumps (.scal (.mint i)), t) := by
  unfold marshalObj
  rw [h]

theorem marshalObj_origin (t : Tables) (v : PyVal) (i m k : Int)
    (margs : Option (Except MErr (List Nat × Tables))) (r : Int)
    (h1 : t.proxied_objects.lookup i = none) (h2 : t.proxy_ids.lookup i = some r) :
    marshalObj t v i m k margs = .ok (111 :: mdumps (.scal (.mint r)), t) := by
  unfold marshalObj
  rw [h1, h2]

theorem insertIndex_of_first (tid : Nat) :
    ∀ (l : List RH) (j : Nat) (hj : RH),
    (∀ x ∈ l.take j, x.thread ≠ tid) → l.get? j = some hj → hj.thread = tid →
    insertIndex tid l = j := by
  intro l
  induction l with
  | nil => intro j hj _ hget _; simp at hget
  | cons x t ihl =>
    intro j hj hpre hget htid
    cases j with
    | zero =>
      simp only [List.get?] at hget
      rw [insertIndex, if_pos]
      rw [show x = hj from Option.some.inj hget]
      exact htid
    | succ j' =>
      have hx : x.thread ≠ tid := by
        apply hpre
        simp [List.take]
      rw [insertIndex, if_neg hx]
      have : insertIndex tid t = j' := by
        apply ihl j' hj _ hget htid
        intro y hy
        exact hpre y (by simp [List.take, hy])
      omega

theorem insertIndex_all_ne (tid : Nat) :
    ∀ l : List RH, (∀ x ∈ l, x.thread ≠ tid) → insertIndex tid l = l.length := by
  intro l
  induction l with
  | nil => intro _; rfl
  | cons x t ihl =>
    intro hall
    rw [insertIndex, if_neg (hall x (by simp))]
    rw [ihl (fun y hy => hall y (by simp [hy]))]
    rfl

/-! ## Claims -/

/-- C4: For every value in the supported simple scalar type set and every
finite-depth tuple built from such values (including the empty tuple and
nested tuples), unmarshaling the result of marshaling the value yields a
value structurally equal to the original. -/
theorem claim_c4 (v : PyVal) (h : isSimple v = true) (t : Tables) (bs : List Nat)
    (t' : Tables) (hm : marshal t v = .ok (bs, t')) (u : Tables) :
    unmarshal u bs = .ok v u := by
  unfold unmarshal
  exact (marshal_roundtrip_aux (sizeOf v) v le_rfl h t bs t' hm).2
    (bs.length + 1) u (Nat.lt_succ_self _)

/-- C8: Every call to send_request made while the connection's open flag
is false fails with ConnectionClosed before any handler is registered or
any frame is written: the state is unchanged and the trace is empty. -/
theorem claim_c8 (c : Conn) (tid rc hid mt : Nat) (args : PyVal)
    (h : c.openFlag = false) :
    send_request c tid rc hid mt args = ⟨c, [], .closedError⟩ := by
  unfold send_request
  rw [if_pos (by simp [h])]

theorem claim_c8_witness :
    send_request ⟨false, false, 0, 0, 0, [], [], emptyTables⟩ 0 0 0 5 (.tup [])
      = ⟨⟨false, false, 0, 0, 0, [], [], emptyTables⟩, [], .closedError⟩ :=
  claim_c8 ⟨false, false, 0, 0, 0, [], [], emptyTables⟩ 0 0 0 5 (.tup []) rfl

/-- C9: For every payload byte string whose first byte is none of s, t,
p, o (and for the empty payload), unmarshal fails with the MarshalError
ValueError "Invalid payload prefix"; for every payload beginning with one
of those four tags it takes the corresponding decode branch. -/
theorem claim_c9 :
    (∀ t : Tables, unmarshal t [] = .err .invalidPayload)
  ∧ (∀ (t : Tables) (b : Nat) (rest : List Nat),
        b ≠ 115 → b ≠ 116 → b ≠ 112 → b ≠ 111 →
        unmarshal t (b :: rest) = .err .invalidPayload)
  ∧ (∀ (t : Tables) (rest : List Nat), unmarshal t (115 :: rest) = sBranch t rest)
  ∧ (∀ (t : Tables) (rest : List Nat),
      unmarshal t (116 :: rest) = tBranch (rest.length + 1) t rest)
  ∧ (∀ (t : Tables) (rest : List Nat),
      unmarshal t (112 :: rest) = pBranch (rest.length + 1) t rest)
  ∧ (∀ (t : Tables) (rest : List Nat), unmarshal t (111 :: rest) = oBranch t rest) := by
  refine ⟨fun t => rfl, ?_, fun t rest => rfl, ?_, ?_, fun t rest => rfl⟩
  · intro t b rest h1 h2 h3 h4
    unfold unmarshal unmarshalF
    split
    · rename_i heq; injection heq with hh; exact (h1 hh).elim
    · rename_i heq; injection heq with hh; exact (h2 hh).elim
    · rename_i heq; injection heq with hh; exact (h3 hh).elim
    · rename_i heq; injection heq with hh; exact (h4 hh).elim
    · rfl
  · intro t rest
    simp [unmarshal, unmarshalF, tBranch]
  · intro t rest
    simp [unmarshal, unmarshalF, pBranch]

theorem claim_c9_witness :
    unmarshal emptyTables [99, 0] = .err .invalidPayload :=
  claim_c9.2.1 emptyTables 99 [0] (by decide) (by decide) (by decide) (by decide)

/-- C10: If a value has a type in the simple marshallable type set but
the binary codec rejects it with ValueError, marshal does not propagate
the error: it takes the identity chain and emits exactly the bytes it
would emit for a value of non-marshallable type with the same identity,
opmask, proxy kind and constructor args. -/
theorem claim_c10 (t : Tables) (i m k : Int) (a : Option PyVal) :
    (marshal t (.badscalar i m k a)).map Prod.fst
      = (marshal t (.obj i m k a)).map Prod.fst := by
  cases a with
  | none =>
    rw [marshal, marshal]
    exact marshalObj_fst t _ _ i m k none
  | some args =>
    rw [marshal, marshal]
    exact marshalObj_fst t _ _ i m k (some (marshal t args))

/-- C5: Marshaling a value that is neither a simple scalar nor a
marshalable tuple: an identity already in proxied_objects yields tag p
with just the scalar identity and unchanged tables; else an identity in
proxy_ids yields tag o with the stored remote identity; else the object
is recorded in proxied_objects before returning and the result is tag p
with the full introduction tuple (identity, opmask, proxy kind, and the
marshaled constructor args when the proxy-kind classifier supplies
args). -/
theorem claim_c5 (t : Tables) (i m k : Int) (a : Option PyVal) :
    ((t.proxied_objects.lookup i).isSome = true →
        marshal t (.obj i m k a) = .ok (112 :: mdumps (.scal (.mint i)), t))
  ∧ (∀ r, t.proxied_objects.lookup i = none → t.proxy_ids.lookup i = some r →
        marshal t (.obj i m k a) = .ok (111 :: mdumps (.scal (.mint r)), t))
  ∧ (t.proxied_objects.lookup i = none → t.proxy_ids.lookup i = none →
        (a = none →
          marshal t (.obj i m k a)
            = .ok (112 :: mdumps (.tup [.mint i, .mint m, .mint k]),
                   record t i (.obj i m k a)))
      ∧ (∀ args bs2 t1, a = some args → marshal t args = .ok (bs2, t1) →
          marshal t (.obj i m k a)
            = .ok (112 :: mdumps (.tup [.mint i, .mint m, .mint k, .mstr bs2]),
                   record t1 i (.obj i m k a)))) := by
  refine ⟨?_, ?_, ?_⟩
  · intro h1
    obtain ⟨x, hx⟩ := Option.isSome_iff_exists.mp h1
    cases a with
    | none => rw [marshal]; exact marshalObj_proxied t _ i m k none x hx
    | some args => rw [marshal]; exact marshalObj_proxied t _ i m k _ x hx
  · intro r h1 h2
    cases a with
    | none => rw [marshal]; exact marshalObj_origin t _ i m k none r h1 h2
    | some args => rw [marshal]; exact marshalObj_origin t _ i m k _ r h1 h2
  · intro h1 h2
    constructor
    · intro ha
      subst ha
      rw [marshal]
      unfold marshalObj
      simp only [h1, h2]
    · intro args bs2 t1 ha hm
      subst ha
      rw [marshal]
      unfold marshalObj
      simp only [h1, h2, hm]

/-- C7: A non-fatal handler error on an inbound request (a non-exception
message) decrements processing (notifying at zero) and sends an
exception frame carrying the error instead of a response; SystemExit
(FatalExit) sends a response carrying the exit code and re-raises; an
error raised while handling an exception message propagates without
sending anything. -/
theorem claim_c7 (p : Int) (mtype : Nat) (body : HBody) :
    (mtype ∉ response_types → ∀ e, body = .raised e →
       (handleRun p mtype body).processing = p - 1
     ∧ ((handleRun p mtype body).notified = true ↔ p - 1 = 0)
     ∧ (handleRun p mtype body).sent = [(exceptionCode, e)]
     ∧ (handleRun p mtype body).ret = none
     ∧ (handleRun p mtype body).propagated = none)
  ∧ (∀ code, body = .sysExit code →
       (handleRun p mtype body).sent = [(responseCode, code)]
     ∧ (handleRun p mtype body).propagated = some (.sysExit code))
  ∧ (mtype = exceptionCode → ∀ e, body = .raised e →
       (handleRun p mtype body).propagated = some (.raised e)
     ∧ (handleRun p mtype body).sent = []
     ∧ (handleRun p mtype body).processing = p) := by
  refine ⟨?_, ?_, ?_⟩
  · intro hmt e hb
    subst hb
    have hne : mtype ≠ exceptionCode := by
      intro hc; exact hmt (by simp [hc, response_types])
    rw [handleRun]
    rw [if_neg hne]
    refine ⟨rfl, ?_, rfl, rfl, rfl⟩
    simp [beq_iff_eq]
  · intro code hb
    subst hb
    rw [handleRun]
    exact ⟨rfl, rfl⟩
  · intro hmt e hb
    subst hb
    rw [handleRun, if_pos hmt]
    exact ⟨rfl, rfl, rfl⟩

theorem claim_c7_witness :
    ((handleRun 1 5 (.raised (.tup []))).processing = 0
   ∧ ((handleRun 1 5 (.raised (.tup []))).notified = true ↔ (1 : Int) - 1 = 0)
   ∧ (handleRun 1 5 (.raised (.tup []))).sent = [(exceptionCode, .tup [])]
   ∧ (handleRun 1 5 (.raised (.tup []))).ret = none
   ∧ (handleRun 1 5 (.raised (.tup []))).propagated = none)
  ∧ ((handleRun 1 5 (.sysExit (.tup []))).sent = [(responseCode, .tup [])]
   ∧ (handleRun 1 5 (.sysExit (.tup []))).propagated = some (.sysExit (.tup [])))
  ∧ ((handleRun 1 exceptionCode (.raised (.tup []))).propagated
        = some (.raised (.tup []))
   ∧ (handleRun 1 exceptionCode (.raised (.tup []))).sent = []
   ∧ (handleRun 1 exceptionCode (.raised (.tup []))).processing = 1) :=
  ⟨(claim_c7 1 5 (.raised (.tup []))).1 (by decide) (.tup []) rfl,
   (claim_c7 1 5 (.sysExit (.tup []))).2.1 (.tup []) rfl,
   (claim_c7 1 exceptionCode (.raised (.tup []))).2.2 rfl (.tup []) rfl⟩

theorem sendFrame_handlers (c1 : Conn) (mt' : Nat) (args' : PyVal) (h : RH) :
    (sendFrame c1 mt' args' h).conn.response_handlers = c1.response_handlers := by
  unfold sendFrame
  cases marshal c1.tables args' with
  | ok p => obtain ⟨payload, t2⟩ := p; rfl
  | error e => rfl

/-- C1: In send_request, when the outbound message is a syncrequest
(nested request, request_count positive), the new ResponseHandler is
inserted immediately before the first existing handler whose owning
thread equals the calling thread, and at the tail if no such handler
exists; when the message is a top-level request, the handler is appended
at the tail. -/
theorem claim_c1 (c : Conn) (tid rc hid mt : Nat) (args : PyVal)
    (hopen : c.openFlag = true) :
    ((0 < rc → ∀ bs t1, marshal c.tables args = .ok (bs, t1) →
       ((∀ (j : Nat) (hj : RH),
            (∀ x ∈ c.response_handlers.take j, x.thread ≠ tid) →
            c.response_handlers.get? j = some hj → hj.thread = tid →
            (send_request c tid rc hid mt args).conn.response_handlers
              = c.response_handlers.take j
                  ++ (⟨hid, tid, true, false, none⟩ : RH)
                    :: c.response_handlers.drop j)
        ∧ ((∀ x ∈ c.response_handlers, x.thread ≠ tid) →
            (send_request c tid rc hid mt args).conn.response_handlers
              = c.response_handlers ++ [(⟨hid, tid, true, false, none⟩ : RH)])))
     ∧ (rc = 0 → mt ≠ syncrequestCode →
         (send_request c tid rc hid mt args).conn.response_handlers
           = c.response_handlers ++ [(⟨hid, tid, false, false, none⟩ : RH)])) := by
  have hsync : (syncrequestCode == syncrequestCode) = true := by decide
  constructor
  · intro hrc bs t1 hm
    have hsr : (send_request c tid rc hid mt args).conn.response_handlers
        = c.response_handlers.take (insertIndex tid c.response_handlers)
            ++ (⟨hid, tid, true, false, none⟩ : RH)
              :: c.response_handlers.drop (insertIndex tid c.response_handlers) := by
      unfold send_request
      rw [if_neg (by simp [hopen]), if_pos hrc, hm]
      dsimp only
      rw [hsync]
      rw [if_pos rfl]
      rw [sendFrame_handlers]
    constructor
    · intro j hj hpre hget htid
      rw [hsr, insertIndex_of_first tid c.response_handlers j hj hpre hget htid]
    · intro hall
      rw [hsr, insertIndex_all_ne tid c.response_handlers hall]
      rw [List.take_length, List.drop_length]
  · intro hrc0 hmt
    subst hrc0
    have hbeq : (mt == syncrequestCode) = false := beq_eq_false_iff_ne.mpr hmt
    unfold send_request
    rw [if_neg (by simp [hopen]), if_neg (by omega)]
    dsimp only
    rw [hbeq]
    rw [if_neg (by simp)]
    rw [sendFrame_handlers]

def c4val : PyVal := .tup [.scalar (.mint 5), .tup [], .scalar (.mstr [7, 8])]

def c4bytes : List Nat :=
  [116, 0, 0, 0, 4, 115, 0, 0, 5, 0, 0, 0, 1, 116, 0, 0, 0, 5, 115, 1, 2, 7, 8]

theorem claim_c4_witness :
    isSimple c4val = true
  ∧ marshal emptyTables c4val = .ok (c4bytes, emptyTables)
  ∧ unmarshal emptyTables c4bytes = .ok c4val emptyTables :=
  ⟨rfl, rfl, claim_c4 c4val rfl emptyTables c4bytes emptyTables rfl emptyTables⟩

def c5known : Tables := ⟨[(1, .tup [])], [], [], [], 0⟩

def c5origin : Tables := ⟨[], [(1, 9)], [], [], 0⟩

theorem claim_c5_witness :
    marshal c5known (.obj 1 2 3 none) = .ok (112 :: mdumps (.scal (.mint 1)), c5known)
  ∧ marshal c5origin (.obj 1 2 3 none) = .ok (111 :: mdumps (.scal (.mint 9)), c5origin)
  ∧ marshal emptyTables (.obj 1 2 3 none)
      = .ok (112 :: mdumps (.tup [.mint 1, .mint 2, .mint 3]),
             record emptyTables 1 (.obj 1 2 3 none))
  ∧ marshal emptyTables (.obj 1 2 3 (some (.scalar .mnone)))
      = .ok (112 :: mdumps (.tup [.mint 1, .mint 2, .mint 3, .mstr [115, 3]]),
             record emptyTables 1 (.obj 1 2 3 (some (.scalar .mnone)))) :=
  ⟨(claim_c5 c5known 1 2 3 none).1 rfl,
   (claim_c5 c5origin 1 2 3 none).2.1 9 rfl rfl,
   ((claim_c5 emptyTables 1 2 3 none).2.2 rfl rfl).1 rfl,
   ((claim_c5 emptyTables 1 2 3 (some (.scalar .mnone))).2.2 rfl rfl).2
     (.scalar .mnone) [115, 3] emptyTables rfl rfl⟩

def c1conn : Conn :=
  ⟨true, false, 0, 0, 0, [],
   [⟨0, 5, false, false, none⟩, ⟨1, 7, false, false, none⟩], emptyTables⟩

def c1conn2 : Conn :=
  ⟨true, false, 0, 0, 0, [], [⟨0, 5, false, false, none⟩], emptyTables⟩

theorem claim_c1_witness :
    (send_request c1conn 7 1 9 3 (.scalar .mnone)).conn.response_handlers
      = c1conn.response_handlers.take 1
          ++ (⟨9, 7, true, false, none⟩ : RH) :: c1conn.response_handlers.drop 1
  ∧ (send_request c1conn2 7 1 9 3 (.scalar .mnone)).conn.response_handlers
      = c1conn2.response_handlers ++ [(⟨9, 7, true, false, none⟩ : RH)]
  ∧ (send_request c1conn2 7 0 9 3 (.scalar .mnone)).conn.response_handlers
      = c1conn2.response_handlers ++ [(⟨9, 7, false, false, none⟩ : RH)] :=
  ⟨((claim_c1 c1conn 7 1 9 3 (.scalar .mnone) rfl).1 (by decide) [115, 3]
      emptyTables rfl).1 1 ⟨1, 7, false, false, none⟩ (by decide) rfl rfl,
   ((claim_c1 c1conn2 7 1 9 3 (.scalar .mnone) rfl).1 (by decide) [115, 3]
      emptyTables rfl).2 (by decide),
   (claim_c1 c1conn2 7 0 9 3 (.scalar .mnone) rfl).2 rfl (by decide)⟩

/-- C2: For a send_request(code, args) made by a thread with positive
request_count, the frame actually written has type syncrequest and its
payload is the marshal of the pair (code, marshaled args); on the
receiving side the dispatch decision (which registered handler and
which unmarshaled arguments) is the same as for a direct request frame
with that code and the marshaled args as payload. -/
theorem claim_c2 (c : Conn) (tid rc hid mt : Nat) (args : PyVal)
    (hrc : 0 < rc) (hmt : mt ≠ syncrequestCode) (hopen : c.openFlag = true)
    (bs1 : List Nat) (t1 : Tables) (hm1 : marshal c.tables args = .ok (bs1, t1))
    (payload : List Nat) (t2 : Tables)
    (hm2 : marshal t1 (PyVal.tup [.scalar (.mint mt), .scalar (.mstr bs1)])
             = .ok (payload, t2)) :
    (send_request c tid rc hid mt args).trace
      = [⟨syncrequestCode, payload⟩]
  ∧ ∀ u : Tables,
      dispatchOf u ⟨syncrequestCode, payload⟩ = dispatchOf u ⟨mt, bs1⟩ := by
  constructor
  · unfold send_request
    rw [if_neg (by simp [hopen]), if_pos hrc, hm1]
    dsimp only
    rw [show (syncrequestCode == syncrequestCode) = true from rfl]
    rw [if_pos rfl]
    unfold sendFrame
    dsimp only
    rw [hm2]
  · intro u
    have hsimp : isSimple (PyVal.tup [.scalar (.mint mt), .scalar (.mstr bs1)])
        = true := rfl
    have hw : unmarshal u payload
        = .ok (PyVal.tup [.scalar (.mint mt), .scalar (.mstr bs1)]) u := by
      unfold unmarshal
      exact (marshal_roundtrip_aux (sizeOf (PyVal.tup [.scalar (.mint mt),
        .scalar (.mstr bs1)])) _ le_rfl hsimp t1 payload t2 hm2).2
        (payload.length + 1) u (Nat.lt_succ_self _)
    unfold dispatchOf
    rw [hw]
    dsimp only
    rw [show (syncrequestCode == syncrequestCode) = true from rfl]
    rw [if_pos rfl]
    unfold handleSyncrequestDispatch
    dsimp only
    rw [show message_types (mt : Int) = some mt by
      unfold message_types
      rw [if_pos (Int.natCast_nonneg mt)]
      rw [Int.toNat_natCast]]
    have hbeq : (mt == syncrequestCode) = false := beq_eq_false_iff_ne.mpr hmt
    cases unmarshal u bs1 with
    | ok inner t' => dsimp only; rw [hbeq]; rfl
    | err e => rfl
    | blocked i t' => rfl
    | diverge => rfl

def c2conn : Conn := ⟨true, false, 0, 0, 0, [], [], emptyTables⟩

theorem claim_c2_witness :
    (send_request c2conn 0 1 0 5 (.scalar (.mint 7))).trace
      = [⟨syncrequestCode,
          [116, 0, 0, 0, 4, 115, 0, 0, 5, 0, 0, 0, 7, 115, 1, 4, 115, 0, 0, 7]⟩]
  ∧ ∀ u : Tables,
      dispatchOf u ⟨syncrequestCode,
        [116, 0, 0, 0, 4, 115, 0, 0, 5, 0, 0, 0, 7, 115, 1, 4, 115, 0, 0, 7]⟩
        = dispatchOf u ⟨5, [115, 0, 0, 7]⟩ :=
  claim_c2 c2conn 0 1 0 5 (.scalar (.mint 7)) (by decide) (by decide) rfl
    [115, 0, 0, 7] emptyTables rfl
    [116, 0, 0, 0, 4, 115, 0, 0, 5, 0, 0, 0, 7, 115, 1, 4, 115, 0, 0, 7]
    emptyTables rfl

/-- C3: A thread inside waitForRequest proceeds to read a frame only in
a state where open holds, the requests queue is empty, no other thread
is receiving, the responses count is zero, and processing is zero or
equals waiting; in every other state with the connection open it blocks
on the scheduling condition or consumes a queued request.  The counter
hypotheses (nonnegative responses and processing, waiting at most
processing) restrict the statement to the states the counters can
actually take. -/
theorem claim_c3 (c : Conn) (stream : List Msg)
    (h1 : 0 ≤ c.responses) (h2 : 0 ≤ c.processing)
    (h3 : c.waiting ≤ c.processing) :
    (isReadOutcome (waitForRequest c stream) = true → specReadPredicate c)
  ∧ (c.openFlag = true → ¬ specReadPredicate c →
      waitForRequest c stream = .blocks
        ∨ ∃ m c', waitForRequest c stream = .consumed m c') := by
  constructor
  · intro hro
    by_cases hguard : (c.openFlag ∧ c.requests = []) ∧
        (c.receiving ∨ c.responses > 0 ∨
          (c.processing > 0 ∧ c.processing > c.waiting))
    · rw [waitForRequest.eq_def, if_pos hguard] at hro
      simp [isReadOutcome] at hro
    · cases ho : c.openFlag with
      | false =>
        rw [waitForRequest.eq_def, if_neg hguard, if_pos (by simp [ho])] at hro
        simp [isReadOutcome] at hro
      | true =>
        cases hreq : c.requests with
        | cons m rest =>
          rw [waitForRequest.eq_def, if_neg hguard, if_neg (by simp [ho]), hreq] at hro
          simp [isReadOutcome] at hro
        | nil =>
          have hA : (c.openFlag ∧ c.requests = []) := ⟨by simp [ho], hreq⟩
          have hB : ¬ (c.receiving ∨ c.responses > 0 ∨
              (c.processing > 0 ∧ c.processing > c.waiting)) :=
            fun hb => hguard ⟨hA, hb⟩
          push_neg at hB
          exact ⟨by simp [ho], hreq, hB.1, by omega, by omega⟩
  · intro ho hnp
    cases hreq : c.requests with
    | cons m rest =>
      right
      refine ⟨m, setHead { c with processing := c.processing + 1,
                                  requests := rest }, ?_⟩
      rw [waitForRequest.eq_def, if_neg (by simp [hreq]), if_neg (by simp [ho]), hreq]
    | nil =>
      left
      rw [waitForRequest.eq_def, if_pos]
      refine ⟨⟨by simp [ho], hreq⟩, ?_⟩
      by_cases hr : c.receiving
      · exact Or.inl hr
      · right
        by_cases hresp : c.responses > 0
        · exact Or.inl hresp
        · right
          have hro : ¬ (c.processing = 0 ∨ c.processing = c.waiting) := by
            intro hpw
            exact hnp ⟨by simp [ho], hreq, hr, by omega, hpw⟩
          constructor
          · omega
          · omega

def c3readConn : Conn := ⟨true, false, 0, 0, 0, [], [], emptyTables⟩

def c3blockConn : Conn := ⟨true, true, 0, 0, 0, [], [], emptyTables⟩

theorem claim_c3_witness :
    specReadPredicate c3readConn
  ∧ (waitForRequest c3blockConn [] = .blocks
       ∨ ∃ m c', waitForRequest c3blockConn [] = .consumed m c') :=
  ⟨(claim_c3 c3readConn [⟨5, []⟩] (by decide) (by decide) (by decide)).1 rfl,
   (claim_c3 c3blockConn [] (by decide) (by decide) (by decide)).2 rfl
     (by intro hp; exact absurd hp.2.2.1 (by decide))⟩

theorem wfrAfterLoop_ret (c : Conn) (h : RH) (m0 : Option Msg) (stream : List Msg)
    (m : Msg) (c' : Conn)
    (hret : wfrAfterLoop c h m0 stream = .ret m c') :
    (c.openFlag = true → m.mtype ∈ response_types →
        c'.response_handlers = c.response_handlers.tail)
  ∧ c'.waiting = c.waiting - (if h.syncrequest then 1 else 0) := by
  cases m0 with
  | none =>
    rw [wfrAfterLoop] at hret
    cases ho : c.openFlag with
    | true =>
      rw [if_pos ho] at hret
      cases hrl : recvLoop stream c.requests with
      | none => rw [hrl] at hret; simp at hret
      | some p =>
        obtain ⟨m2, req'⟩ := p
        rw [hrl] at hret
        dsimp only at hret
        injection hret with hm2 hc3
        subst hm2
        subst hc3
        constructor
        · intro _ hresp
          by_cases hs : h.syncrequest <;> simp [hs, hresp]
        · by_cases hs : h.syncrequest <;> simp [hs] <;>
            split <;> (try split) <;> simp
    | false =>
      rw [if_neg (by simp [ho])] at hret
      dsimp only at hret
      cases hch : (if h.syncrequest then { c with waiting := c.waiting - 1 }
                   else c).response_handlers with
      | nil => rw [hch] at hret; simp at hret
      | cons a tl => rw [hch] at hret; simp at hret
  | some m0v =>
    rw [wfrAfterLoop] at hret
    cases ho : c.openFlag with
    | true =>
      rw [if_pos ho] at hret
      dsimp only at hret
      injection hret with hm2 hc3
      subst hm2
      subst hc3
      constructor
      · intro _ hresp
        by_cases hs : h.syncrequest <;> simp [hs, hresp]
      · by_cases hs : h.syncrequest <;> simp [hs] <;>
          split <;> simp
    | false =>
      rw [if_neg (by simp [ho])] at hret
      injection hret with hm2 hc3
      subst hm2
      subst hc3
      constructor
      · intro hoo _
        simp [ho] at hoo
      · by_cases hs : h.syncrequest <;> simp [hs]

/-- C6 (amended): Upon a waitForResponse return with the connection
open, if the returned message is a response or exception the element at
the head of response_handlers is removed; and waiting is decremented on
every return exactly when the handler was created for a syncrequest —
including returns whose message is an intervening syncrequest, so
waiting can be decremented more than once over the lifetime of a
syncrequest handler. -/
theorem claim_c6_amended (c : Conn) (h : RH) (stream : List Msg) (m : Msg)
    (c' : Conn) (hret : waitForResponse c h stream = .ret m c') :
    (c.openFlag = true → m.mtype ∈ response_types →
        c'.response_handlers = c.response_handlers.tail)
  ∧ c'.waiting = c.waiting - (if h.syncrequest then 1 else 0) := by
  unfold waitForResponse at hret
  by_cases hcm : c.openFlag ∧ (if h.eventSet then h.message else none) = none
  · rw [if_pos hcm] at hret
    cases hr : c.receiving with
    | true => rw [if_pos (by simp [hr])] at hret; simp at hret
    | false =>
      rw [if_neg (by simp [hr])] at hret
      cases hl : c.response_handlers with
      | nil => rw [hl] at hret; simp at hret
      | cons h0 tl =>
        rw [hl] at hret
        dsimp only at hret
        by_cases hhid : h0.hid ≠ h.hid
        · rw [if_pos hhid] at hret; simp at hret
        · rw [if_neg hhid] at hret
          by_cases hpw : c.processing > 0 ∧ c.processing > c.waiting
          · rw [if_pos hpw] at hret; simp at hret
          · rw [if_neg hpw] at hret
            have hmain := wfrAfterLoop_ret c h _ stream m c' hret
            rw [hl] at hmain
            exact hmain
  · rw [if_neg hcm] at hret
    exact wfrAfterLoop_ret c h _ stream m c' hret

def wfrRetType : WFRRes → Option Nat
  | .ret m _ => some m.mtype
  | _ => none

def wfrRetWaiting : WFRRes → Option Int
  | .ret _ c => some c.waiting
  | _ => none

def c6start : Conn :=
  ⟨true, false, 1, 1, 0, [], [⟨0, 0, true, false, none⟩], emptyTables⟩

def c6handler : RH := ⟨0, 0, true, false, none⟩

/-- C6 as stated is false on the code: a waitForResponse call whose
returned message is an intervening syncrequest does decrement waiting
when the handler was created for a syncrequest (line 416-417 runs
unconditionally), so waiting is not decremented exactly once per
syncrequest handler.  Concrete run: open connection, processing = 1,
waiting = 1, a single syncrequest handler owned by the calling thread,
and an incoming syncrequest frame; the call returns the syncrequest and
waiting drops from 1 to 0. -/
theorem claim_c6_cex :
    wfrRetType (waitForResponse c6start c6handler [⟨syncrequestCode, []⟩])
      = some syncrequestCode
  ∧ wfrRetWaiting (waitForResponse c6start c6handler [⟨syncrequestCode, []⟩])
      = some 0
  ∧ c6start.waiting = 1
  ∧ c6handler.syncrequest = true := ⟨rfl, rfl, rfl, rfl⟩

def c6wstart : Conn :=
  ⟨true, false, 0, 0, 1, [],
   [⟨0, 0, false, true, some ⟨responseCode, []⟩⟩], emptyTables⟩

def c6whandler : RH := ⟨0, 0, false, true, some ⟨responseCode, []⟩⟩

def c6wconn : Conn := ⟨true, false, 0, 0, 0, [], [], emptyTables⟩

theorem claim_c6_witness :
    (c6wstart.openFlag = true → (⟨responseCode, []⟩ : Msg).mtype ∈ response_types →
        c6wconn.response_handlers = c6wstart.response_handlers.tail)
  ∧ c6wconn.waiting = c6wstart.waiting
      - (if c6whandler.syncrequest then 1 else 0) :=
  claim_c6_amended c6wstart c6whandler [] ⟨responseCode, []⟩ c6wconn rfl

end Pushy
